import Mathlib

/-!
Verification of the runtime plugin of the `nuxt-apollo` module
(`src/runtime/plugin.ts`).  The plugin builds a keyed registry of Apollo
clients: per client it resolves an auth token (hook, then cookie or
localStorage), composes the transport link chain (error link, auth context
link, HTTP / websocket split), supplies connection parameters on every
websocket (re)connect, assigns the `default` registry alias, and wires the
SSR cache extraction / hydration callbacks.

JS strings are modelled as lists of characters (`Str`); JS objects used as
header maps are modelled as functions `String → Option Str`; `null` and
`undefined` are modelled with `Option`; the server/client branch
(`process.server` / `process.client`) is an explicit `Ctx` parameter.
-/

set_option maxHeartbeats 1000000

namespace NuxtApolloPlugin

/-- JS strings, modelled as lists of unicode characters. -/
abbrev Str := List Char

/-- Coerces a Lean string literal into the character-list model. -/
def str (s : String) : Str := s.data

/-- The characters of the JS regex class `\s`, which is also the set of
characters removed by `String.prototype.trim`. -/
def jsWsChars : Str :=
  [' ', '\t', '\n', '\r', Char.ofNat 0x0b, Char.ofNat 0x0c,
   Char.ofNat 0xa0, Char.ofNat 0x1680,
   Char.ofNat 0x2000, Char.ofNat 0x2001, Char.ofNat 0x2002, Char.ofNat 0x2003,
   Char.ofNat 0x2004, Char.ofNat 0x2005, Char.ofNat 0x2006, Char.ofNat 0x2007,
   Char.ofNat 0x2008, Char.ofNat 0x2009, Char.ofNat 0x200a,
   Char.ofNat 0x2028, Char.ofNat 0x2029, Char.ofNat 0x202f,
   Char.ofNat 0x205f, Char.ofNat 0x3000, Char.ofNat 0xfeff]

/-- Membership test for the JS regex class `\s` (also the `trim` set). -/
def isJsWs (c : Char) : Bool := decide (c ∈ jsWsChars)

/-- The character class `[a-zA-Z]` of the auth-scheme regex in `getAuth`. -/
def isAsciiAlpha (c : Char) : Bool :=
  (decide ('a' ≤ c) && decide (c ≤ 'z')) || (decide ('A' ≤ c) && decide (c ≤ 'Z'))

/-- JS truthiness of a nullable string: `null`/`undefined` and `""` are falsy. -/
def jsTruthy : Option Str → Bool
  | none => false
  | some s => !s.isEmpty

/-- `String.prototype.split` with a single-character separator. -/
def jsSplit (sep : Char) : Str → List Str
  | [] => [[]]
  | c :: cs =>
    if c = sep then [] :: jsSplit sep cs
    else
      match jsSplit sep cs with
      | [] => [[c]]
      | t :: ts => (c :: t) :: ts

/-- `String.prototype.startsWith`: `jsStartsWith pat s` is true when `s`
begins with `pat`. -/
def jsStartsWith : Str → Str → Bool
  | [], _ => true
  | _ :: _, [] => false
  | p :: ps, s :: ss => p == s && jsStartsWith ps ss

/-- Left half of `String.prototype.trim`. -/
def jsTrimLeft (l : Str) : Str := l.dropWhile isJsWs

/-- Right half of `String.prototype.trim`. -/
def jsTrimRight (l : Str) : Str := (l.reverse.dropWhile isJsWs).reverse

/-- `String.prototype.trim`. -/
def jsTrim (l : Str) : Str := jsTrimRight (jsTrimLeft l)

/-- Index `[1]` of a JS array (`undefined` when out of range). -/
def jsIndex1 {α : Type} : List α → Option α
  | _ :: b :: _ => some b
  | _ => none

/-- Joining a list of fragments with a single-character separator; inverse
of `jsSplit` on separator-free fragments. -/
def joinSep (sep : Char) : List Str → Str
  | [] => []
  | [p] => p
  | p :: q :: ps => p ++ sep :: joinSep sep (q :: ps)

/-- Execution context: `process.server` vs `process.client`. -/
inductive Ctx
  | server
  | client
deriving DecidableEq

/-- A header-map object (string keys, nullable string values). -/
abbrev HMap := String → Option Str

/-- The `connectionParams` value of `wsLinkOptions`: a record with an
optional `headers` field plus the remaining top-level keys. -/
structure ConnParams where
  headers : Option HMap
  rest : HMap

/-- `graphql-ws` accepts connection params either as a literal record or as
an (async) producer function; the field may also be absent. -/
inductive ConnParamsOption
  | absent
  | paramsLit (p : ConnParams)
  | paramsFn (f : Unit → ConnParams)

/-- Per-client configuration (`ClientConfig`), restricted to the fields the
runtime plugin reads.  `authType = none` models the JS `null` configuration
(the raw-token policy). -/
structure ClientConfig where
  wsEndpoint : Option Str := none
  tokenName : Str := str "apollo:default.token"
  tokenStorage : String := "cookie"
  authType : Option Str := some (str "Bearer")
  authHeader : String := "Authorization"
  websocketsOnly : Bool := false
  wsConnectionParams : ConnParamsOption := ConnParamsOption.absent

/-- The external inputs consulted during one token resolution: the value the
`apollo:auth` hook leaves in the token ref, the client-side cookie value
(`useCookie(tokenName).value`) and the client-side
`localStorage.getItem(tokenName)` result. -/
structure ResolveEnv where
  hookToken : Option Str
  clientCookie : Option Str
  localStorageVal : Option Str

/-- Line 22: `(process.server && NuxtApollo.proxyCookies &&
useRequestHeaders(['cookie'])) || undefined`.  The outer `Option` is the
presence of the picked-headers object, the inner `Option Str` its `cookie`
field. -/
def requestCookiesOf (ctx : Ctx) (proxyCookies : Bool) (cookieHdr : Option Str) :
    Option (Option Str) :=
  if ctx = Ctx.server ∧ proxyCookies = true then some cookieHdr else none

/-- Line 38: `requestCookies.cookie.split(';').find(c =>
c.trim().startsWith(tokenName + '='))?.split('=')?.[1]`. -/
def cookieScan (hdr tokenName : Str) : Option Str :=
  match (jsSplit ';' hdr).find? (fun c => jsStartsWith (tokenName ++ ['=']) (jsTrim c)) with
  | some entry => jsIndex1 (jsSplit '=' entry)
  | none => none

/-- Lines 28-46 of `getAuth`: the token-resolution phase.  The `apollo:auth`
hook may populate the token ref; only when the ref is still falsy is the
configured storage backend read; a falsy final value resolves to `none`
("no credential"). -/
def resolveToken (cfg : ClientConfig) (ctx : Ctx) (rc : Option (Option Str))
    (env : ResolveEnv) : Option Str :=
  let token := env.hookToken
  if jsTruthy token then token
  else
    let token :=
      if cfg.tokenStorage = "cookie" then
        if ctx = Ctx.client then
          if jsTruthy env.clientCookie then env.clientCookie else token
        else
          match rc with
          | some (some hdr) =>
            if hdr.isEmpty then token
            else if jsTruthy (cookieScan hdr cfg.tokenName) then cookieScan hdr cfg.tokenName
            else token
          | _ => token
      else if ctx = Ctx.client ∧ cfg.tokenStorage = "localStorage" then
        env.localStorageVal
      else token
    if jsTruthy token then token else none

/-- Line 48: `!!token.value?.match(/^[a-zA-Z]+\s/)?.[0]` — whether the token
already starts with an alphabetic scheme word followed by whitespace. -/
def hasAuthScheme (token : Str) : Bool :=
  !(token.takeWhile isAsciiAlpha).isEmpty &&
    (match token.dropWhile isAsciiAlpha with
     | c :: _ => isJsWs c
     | [] => false)

/-- Lines 48-52 of `getAuth`: the header-value derivation applied to a
resolved token. -/
def deriveAuthHeader (authType : Option Str) (token : Str) : Str :=
  if hasAuthScheme token then token
  else
    match authType with
    | none => token
    | some a => a ++ ' ' :: token

/-- The whole `getAuth` closure (lines 27-53). -/
def getAuth (cfg : ClientConfig) (ctx : Ctx) (rc : Option (Option Str))
    (env : ResolveEnv) : Option Str :=
  match resolveToken cfg ctx rc env with
  | none => none
  | some tok => some (deriveAuthHeader cfg.authType tok)

/-- Lines 55-67, the `setContext` callback of `authLink`: `none` models the
bare `return` (no context change); otherwise the returned object is the new
`headers` record `{...headers, ...requestCookies, [authHeader]: auth}`. -/
def applyAuthLink (cfg : ClientConfig) (ctx : Ctx) (rc : Option (Option Str))
    (env : ResolveEnv) (headers : HMap) : Option HMap :=
  match getAuth cfg ctx rc env with
  | none => none
  | some auth =>
    some (fun k =>
      if k = cfg.authHeader then some auth
      else
        match rc with
        | some hdr => if k = "cookie" then hdr else headers k
        | none => headers k)

/-- The headers an operation actually proceeds with after the auth link:
an unchanged context when the callback returned nothing. -/
def effectiveHeaders (cfg : ClientConfig) (ctx : Ctx) (rc : Option (Option Str))
    (env : ResolveEnv) (headers : HMap) : HMap :=
  match applyAuthLink cfg ctx rc env headers with
  | none => headers
  | some h => h

/-- `clientConfig.wsLinkOptions?.connectionParams || {}`, then the
`typeof connectionParams === 'function'` await (lines 82-87). -/
def awaitStaticParams : ConnParamsOption → ConnParams
  | ConnParamsOption.absent => { headers := none, rest := fun _ => none }
  | ConnParamsOption.paramsLit p => p
  | ConnParamsOption.paramsFn f => f ()

/-- Lines 81-100, the `connectionParams` supplier passed to the restartable
ws client: resolve the static params, resolve auth, and when auth exists
return `{...connectionParams, headers}` with
`headers = { [authHeader]: auth, ...(connectionParams?.headers || {}) }`. -/
def wsConnectionParams (cfg : ClientConfig) (ctx : Ctx) (rc : Option (Option Str))
    (env : ResolveEnv) : ConnParams :=
  let cp := awaitStaticParams cfg.wsConnectionParams
  match getAuth cfg ctx rc env with
  | none => cp
  | some auth =>
    let callerHeaders : HMap := match cp.headers with
      | some h => h
      | none => fun _ => none
    let merged : HMap := fun k =>
      match callerHeaders k with
      | some v => some v
      | none => if k = cfg.authHeader then some auth else none
    { headers := some merged, rest := cp.rest }

/-- Header lookup through the optional `headers` field of connection
params. -/
def cpHeader (cp : ConnParams) (k : String) : Option Str :=
  match cp.headers with
  | some h => h k
  | none => none

/-- Header lookup on the supplier result. -/
def resHeader (cfg : ClientConfig) (ctx : Ctx) (rc : Option (Option Str))
    (env : ResolveEnv) (k : String) : Option Str :=
  cpHeader (wsConnectionParams cfg ctx rc env) k

/-- Kinds returned by `getMainDefinition`. -/
inductive DefinitionKind
  | operationDefinition
  | fragmentDefinition
deriving DecidableEq

/-- GraphQL operation kinds. -/
inductive OperationType
  | query
  | mutation
  | subscription
deriving DecidableEq

/-- The root definition of an outgoing operation, as inspected by the split
test (fragment definitions carry no `operation` field). -/
structure MainDefinition where
  kind : DefinitionKind
  operation : Option OperationType
deriving DecidableEq

/-- The terminating transport link an operation is routed to. -/
inductive Terminal
  | httpL
  | wsL
deriving DecidableEq

/-- Line 77: a ws link exists only on the client and only when a
`wsEndpoint` is configured. -/
def hasWsLink (ctx : Ctx) (cfg : ClientConfig) : Bool :=
  if ctx = Ctx.client then jsTruthy cfg.wsEndpoint else false

/-- Lines 123-125: the `split` predicate over the operation's main
definition. -/
def splitTest (d : MainDefinition) : Bool :=
  decide (d.kind = DefinitionKind.operationDefinition) &&
    decide (d.operation = some OperationType.subscription)

/-- Lines 115-131: which terminating link an outgoing operation reaches
through the composed chain (the error link is pass-through). -/
def routeOperation (ctx : Ctx) (cfg : ClientConfig) (d : MainDefinition) : Terminal :=
  if hasWsLink ctx cfg = false then Terminal.httpL
  else if cfg.websocketsOnly = true then Terminal.wsL
  else if splitTest d = true then Terminal.wsL
  else Terminal.httpL

/-- The client registry under construction: the map built in the plugin
loop (a client is identified by the configuration key it was built from)
and a count of how many times the `default` alias assignment on line 150
executed. -/
structure Registry where
  clients : String → Option String
  aliasWrites : Nat

/-- One iteration of the loop over `Object.entries(NuxtApollo.clients)`:
store the freshly built client (line 135), then apply the `default`
aliasing rule of lines 149-151. -/
def registryStep (allKeys : List String) (st : Registry) (key : String) : Registry :=
  let cl : String → Option String := fun k => if k = key then some key else st.clients k
  if cl "default" = none ∧ "default" ∉ allKeys ∧ allKeys.head? = some key then
    { clients := fun k => if k = "default" then some key else cl k,
      aliasWrites := st.aliasWrites + 1 }
  else
    { clients := cl, aliasWrites := st.aliasWrites }

/-- The full construction loop over the declared configuration keys, in
declaration order. -/
def buildRegistry (keys : List String) : Registry :=
  keys.foldl (registryStep keys) { clients := fun _ => none, aliasWrites := 0 }

/-- A normalized cache snapshot (`cache.extract()` output), as an opaque
key-value record. -/
abbrev CacheState := List (String × String)

/-- A value stored in `nuxtApp.payload.data` under a cache key. -/
inductive PayloadVal
  | vNull
  | vCache (s : CacheState)
deriving DecidableEq

/-- `destr(JSON.stringify(x))` on a plain normalized-cache object is the
identity round-trip. -/
def destrStringify (s : CacheState) : CacheState := s

/-- Cache-transfer effects performed for one client during plugin
construction. -/
inductive PluginEffect
  | hookAppRendered (cacheKey : String)
  | cacheRestore (cacheKey : String) (restored : CacheState)
deriving DecidableEq

/-- Lines 153-161: the `app:rendered` callback registration and the guarded
client-side `cache.restore` call, as the list of effects performed for the
client stored under `key`. -/
def clientCacheEffects (ctx : Ctx) (key : String)
    (payload : String → Option PayloadVal) : List PluginEffect :=
  let cacheKey := "_apollo:" ++ key
  PluginEffect.hookAppRendered cacheKey ::
    (if ctx = Ctx.client then
      match payload cacheKey with
      | some (PayloadVal.vCache s) => [PluginEffect.cacheRestore cacheKey (destrStringify s)]
      | _ => []
    else [])

/-! ## Spec-side definitions (refinement counterparts) and concrete data -/

/-- Everything after the first occurrence of `marker`; helper for the
spec-side reading of the cookie scan. -/
def afterFirst (marker : Str) : Str → Str
  | [] => []
  | c :: cs =>
    if jsStartsWith marker (c :: cs) then (c :: cs).drop marker.length
    else afterFirst marker cs

/-- Follows claim C1's words rather than the code: the extracted value is
the entire substring between `"<tokenName>="` and the next `;` or
end-of-string, taken from the first cookie entry whose trimmed form starts
with `"<tokenName>="`. -/
def claimedCookieValue (hdr tokenName : Str) : Option Str :=
  match (jsSplit ';' hdr).find? (fun c => jsStartsWith (tokenName ++ ['=']) (jsTrim c)) with
  | some entry => some (afterFirst (tokenName ++ ['=']) entry)
  | none => none

/-- Follows the spec's words (§4.1 steps 2-4) rather than the code: the
storage-backend read performed when the auth hook has not produced a
token — cookie storage by token name (client cookie store on the client,
the minimal raw-header scan on the server), localStorage on the client
only, and no credential otherwise. -/
def specStorageRead (cfg : ClientConfig) (ctx : Ctx) (rc : Option (Option Str))
    (env : ResolveEnv) : Option Str :=
  if cfg.tokenStorage = "cookie" then
    if ctx = Ctx.client then
      if jsTruthy env.clientCookie then env.clientCookie else none
    else
      match rc with
      | some (some hdr) =>
        if hdr.isEmpty then none
        else if jsTruthy (cookieScan hdr cfg.tokenName) then cookieScan hdr cfg.tokenName
        else none
      | _ => none
  else if ctx = Ctx.client ∧ cfg.tokenStorage = "localStorage" then
    if jsTruthy env.localStorageVal then env.localStorageVal else none
  else none

/-- A resolution environment in which no backend holds a token. -/
def envNone : ResolveEnv := { hookToken := none, clientCookie := none, localStorageVal := none }

/-- A resolution environment in which the `apollo:auth` hook populates the
token ref with the bare token `"fresh"`. -/
def envHookFresh : ResolveEnv :=
  { hookToken := some (str "fresh"), clientCookie := none, localStorageVal := none }

/-- A minimal cookie-storage client configuration with token name `tok`. -/
def cfgCookieTok : ClientConfig := { tokenName := str "tok" }

/-- Caller-supplied static websocket connection headers that already carry
an `Authorization` entry (`"old"`). -/
def callerWsHeaders : HMap := fun k => if k = "Authorization" then some (str "old") else none

/-- A client configuration with a websocket endpoint whose static
connection params already carry an `Authorization` header. -/
def cfgWsCaller : ClientConfig :=
  { tokenName := str "tok",
    wsEndpoint := some (str "wss://api"),
    wsConnectionParams :=
      ConnParamsOption.paramsLit { headers := some callerWsHeaders, rest := fun _ => none } }

/-- An empty transferable payload. -/
def payloadEmpty : String → Option PayloadVal := fun _ => none

/-! ## Helper lemmas about the JS string primitives -/

theorem jsSplit_ne_nil (sep : Char) (l : Str) : jsSplit sep l ≠ [] := by
  induction l with
  | nil => simp [jsSplit]
  | cons c cs ih =>
    by_cases h : c = sep
    · simp [jsSplit, h]
    · simp only [jsSplit, if_neg h]
      split <;> simp

theorem jsSplit_sepFree {sep : Char} {l : Str} (h : ∀ c ∈ l, c ≠ sep) :
    jsSplit sep l = [l] := by
  induction l with
  | nil => rfl
  | cons c cs ih =>
    have hc : c ≠ sep := h c (List.mem_cons_self c cs)
    have ih2 := ih (fun x hx => h x (List.mem_cons_of_mem c hx))
    simp only [jsSplit, if_neg hc, ih2]

theorem jsSplit_sepFree_append {sep : Char} (l₁ l₂ : Str) (h : ∀ c ∈ l₁, c ≠ sep) :
    jsSplit sep (l₁ ++ sep :: l₂) = l₁ :: jsSplit sep l₂ := by
  induction l₁ with
  | nil => simp [jsSplit]
  | cons c cs ih =>
    have hc : c ≠ sep := h c (List.mem_cons_self c cs)
    have ih2 := ih (fun x hx => h x (List.mem_cons_of_mem c hx))
    simp only [List.cons_append, jsSplit, if_neg hc, List.append_eq, ih2]

theorem jsSplit_head_takeWhile (sep : Char) (l : Str) :
    ∃ ts, jsSplit sep l = l.takeWhile (fun c => !(c == sep)) :: ts := by
  induction l with
  | nil => exact ⟨[], rfl⟩
  | cons c cs ih =>
    by_cases h : c = sep
    · subst h
      exact ⟨jsSplit c cs, by simp [jsSplit, List.takeWhile_cons]⟩
    · obtain ⟨ts, hts⟩ := ih
      refine ⟨ts, ?_⟩
      simp only [jsSplit, if_neg h, hts, List.takeWhile_cons]
      simp [h]

theorem dropWhile_all_append {p : Char → Bool} (l₁ l₂ : Str) (h : ∀ c ∈ l₁, p c = true) :
    List.dropWhile p (l₁ ++ l₂) = List.dropWhile p l₂ := by
  induction l₁ with
  | nil => rfl
  | cons c cs ih =>
    have hc := h c (List.mem_cons_self c cs)
    simp only [List.cons_append, List.dropWhile_cons, hc, if_true]
    exact ih (fun x hx => h x (List.mem_cons_of_mem c hx))

theorem dropWhile_stop {p : Char → Bool} (a : Str) {x : Char} (b : Str) (hx : p x = false) :
    List.dropWhile p (a ++ x :: b) = List.dropWhile p a ++ x :: b := by
  induction a with
  | nil => simp [List.dropWhile_cons, hx]
  | cons c cs ih =>
    by_cases hc : p c = true
    · simp only [List.cons_append, List.dropWhile_cons, hc, if_true]
      exact ih
    · have hc2 : p c = false := by simpa using hc
      simp [List.dropWhile_cons, hc2]

theorem takeWhile_all_stop {p : Char → Bool} (w : Str) {c : Char} (r : Str)
    (hw : ∀ x ∈ w, p x = true) (hc : p c = false) :
    List.takeWhile p (w ++ c :: r) = w := by
  induction w with
  | nil => simp [List.takeWhile_cons, hc]
  | cons a as ih =>
    have ha := hw a (List.mem_cons_self a as)
    simp only [List.cons_append, List.takeWhile_cons, ha, if_true]
    rw [ih (fun x hx => hw x (List.mem_cons_of_mem a hx))]

theorem dropWhile_all_stop {p : Char → Bool} (w : Str) {c : Char} (r : Str)
    (hw : ∀ x ∈ w, p x = true) (hc : p c = false) :
    List.dropWhile p (w ++ c :: r) = c :: r := by
  rw [dropWhile_all_append w (c :: r) hw]
  simp [List.dropWhile_cons, hc]

theorem jsTrimRight_append (l₁ : Str) {c : Char} (l₂ : Str) (hc : isJsWs c = false) :
    jsTrimRight (l₁ ++ c :: l₂) = l₁ ++ c :: jsTrimRight l₂ := by
  unfold jsTrimRight
  rw [show (l₁ ++ c :: l₂).reverse = l₂.reverse ++ c :: l₁.reverse by simp]
  rw [dropWhile_stop _ _ hc]
  simp

theorem jsStartsWith_append_self (p r : Str) : jsStartsWith p (p ++ r) = true := by
  induction p with
  | nil => rfl
  | cons c cs ih => simp [jsStartsWith, ih]

theorem find?_middle {α : Type} (p : α → Bool) (pre : List α) (x : α) (post : List α)
    (hpre : ∀ e ∈ pre, p e = false) (hx : p x = true) :
    (pre ++ x :: post).find? p = some x := by
  induction pre with
  | nil => simp [List.find?_cons, hx]
  | cons e es ih =>
    have he := hpre e (List.mem_cons_self e es)
    simp only [List.cons_append, List.find?_cons, he]
    exact ih (fun a ha => hpre a (List.mem_cons_of_mem e ha))

theorem ws_not_alpha {c : Char} (h : isJsWs c = true) : isAsciiAlpha c = false := by
  have hm : c ∈ jsWsChars := of_decide_eq_true h
  simp only [jsWsChars, List.mem_cons, List.not_mem_nil, or_false] at hm
  rcases hm with rfl | rfl | rfl | rfl | rfl | rfl | rfl | rfl | rfl | rfl | rfl | rfl | rfl |
    rfl | rfl | rfl | rfl | rfl | rfl | rfl | rfl | rfl | rfl | rfl | rfl <;> decide

theorem ws_ne_semi {c : Char} (h : isJsWs c = true) : c ≠ ';' := by
  intro hc
  subst hc
  exact absurd (of_decide_eq_true h) (by decide)

theorem ws_ne_eqsign {c : Char} (h : isJsWs c = true) : c ≠ '=' := by
  intro hc
  subst hc
  exact absurd (of_decide_eq_true h) (by decide)

theorem joinSep_ne_nil (sep : Char) (parts : List Str) (h : ∃ p ∈ parts, p ≠ []) :
    joinSep sep parts ≠ [] := by
  match parts with
  | [] => simp at h
  | [p] =>
    obtain ⟨q, hq, hne⟩ := h
    simp only [List.mem_singleton] at hq
    subst hq
    simpa [joinSep] using hne
  | p :: q :: ps => simp [joinSep]

theorem joinSep_split (sep : Char) (parts : List Str) (hne : parts ≠ [])
    (hfree : ∀ p ∈ parts, ∀ c ∈ p, c ≠ sep) :
    jsSplit sep (joinSep sep parts) = parts := by
  induction parts with
  | nil => exact absurd rfl hne
  | cons p ps ih =>
    cases ps with
    | nil =>
      simp only [joinSep]
      exact jsSplit_sepFree (hfree p (List.mem_cons_self p []))
    | cons q qs =>
      simp only [joinSep]
      rw [jsSplit_sepFree_append p _ (hfree p (List.mem_cons_self p (q :: qs)))]
      rw [ih (by simp) (fun e he c hc => hfree e (List.mem_cons_of_mem p he) c hc)]

/-! ## The server-side cookie scan (claim C1) -/

theorem jsTrim_entry (wsl name val : Str) (hwsl : ∀ c ∈ wsl, isJsWs c = true)
    (hname1 : name ≠ []) (hnameWs : ∀ c ∈ name, isJsWs c = false) :
    jsTrim (wsl ++ name ++ '=' :: val) = name ++ '=' :: jsTrimRight val := by
  unfold jsTrim jsTrimLeft
  rw [List.append_assoc]
  rw [dropWhile_all_append wsl _ hwsl]
  cases name with
  | nil => exact absurd rfl hname1
  | cons n₀ ns =>
    have h0 : isJsWs n₀ = false := hnameWs n₀ (List.mem_cons_self n₀ ns)
    rw [List.cons_append, List.dropWhile_cons, h0]
    simp only [Bool.false_eq_true, if_false]
    rw [← List.cons_append, jsTrimRight_append _ _ (by decide)]

theorem entry_matches (wsl name val : Str) (hwsl : ∀ c ∈ wsl, isJsWs c = true)
    (hname1 : name ≠ []) (hnameWs : ∀ c ∈ name, isJsWs c = false) :
    jsStartsWith (name ++ ['=']) (jsTrim (wsl ++ name ++ '=' :: val)) = true := by
  rw [jsTrim_entry wsl name val hwsl hname1 hnameWs]
  rw [show name ++ '=' :: jsTrimRight val = (name ++ ['=']) ++ jsTrimRight val by simp]
  exact jsStartsWith_append_self _ _

theorem cookieScan_first_entry
    (pre post : List Str) (wsl name val : Str)
    (hname1 : name ≠ [])
    (hnameWs : ∀ c ∈ name, isJsWs c = false)
    (hnameEq : ∀ c ∈ name, c ≠ '=')
    (hnameSemi : ∀ c ∈ name, c ≠ ';')
    (hwsl : ∀ c ∈ wsl, isJsWs c = true)
    (hval : ∀ c ∈ val, c ≠ ';')
    (hpre : ∀ e ∈ pre, (∀ c ∈ e, c ≠ ';') ∧
      jsStartsWith (name ++ ['=']) (jsTrim e) = false)
    (hpost : ∀ e ∈ post, ∀ c ∈ e, c ≠ ';') :
    cookieScan (joinSep ';' (pre ++ (wsl ++ name ++ '=' :: val) :: post)) name =
      some (val.takeWhile (fun c => !(c == '='))) := by
  have hentryFree : ∀ c ∈ wsl ++ name ++ '=' :: val, c ≠ ';' := by
    intro c hc
    rcases List.mem_append.mp hc with h1 | h2
    · rcases List.mem_append.mp h1 with h3 | h4
      · exact ws_ne_semi (hwsl c h3)
      · exact hnameSemi c h4
    · rcases List.mem_cons.mp h2 with rfl | h5
      · decide
      · exact hval c h5
  have hsplit : jsSplit ';' (joinSep ';' (pre ++ (wsl ++ name ++ '=' :: val) :: post)) =
      pre ++ (wsl ++ name ++ '=' :: val) :: post := by
    apply joinSep_split
    · simp
    · intro p hp
      rcases List.mem_append.mp hp with h1 | h2
      · exact (hpre p h1).1
      · rcases List.mem_cons.mp h2 with rfl | h3
        · exact hentryFree
        · exact hpost p h3
  unfold cookieScan
  rw [hsplit]
  rw [find?_middle _ pre _ post (fun e he => (hpre e he).2)
    (entry_matches wsl name val hwsl hname1 hnameWs)]
  have hfree2 : ∀ c ∈ wsl ++ name, c ≠ '=' := by
    intro c hc
    rcases List.mem_append.mp hc with h1 | h2
    · exact ws_ne_eqsign (hwsl c h1)
    · exact hnameEq c h2
  have hsplit2 : jsSplit '=' (wsl ++ name ++ '=' :: val) = (wsl ++ name) :: jsSplit '=' val :=
    jsSplit_sepFree_append _ _ hfree2
  show jsIndex1 (jsSplit '=' (wsl ++ name ++ '=' :: val)) = _
  rw [hsplit2]
  obtain ⟨ts, hts⟩ := jsSplit_head_takeWhile '=' val
  rw [hts]
  rfl

/-- C1 (amended): with `tokenStorage = "cookie"`, an empty auth-hook
result and the raw cookie header available on a server execution context,
token resolution returns the first `=`-separated field of the first
matching cookie entry: the substring between `"<tokenName>="` and the next
`=` or `;` or end-of-string (not, as claimed, the full substring up to the
next `;`), first matching entry winning, no URL-decoding applied. -/
theorem serverCookieResolution_extracts_field
    (cfg : ClientConfig) (env : ResolveEnv)
    (pre post : List Str) (wsl name val : Str)
    (hstorage : cfg.tokenStorage = "cookie")
    (htok : cfg.tokenName = name)
    (hhook : env.hookToken = none)
    (hname1 : name ≠ [])
    (hnameWs : ∀ c ∈ name, isJsWs c = false)
    (hnameEq : ∀ c ∈ name, c ≠ '=')
    (hnameSemi : ∀ c ∈ name, c ≠ ';')
    (hwsl : ∀ c ∈ wsl, isJsWs c = true)
    (hval : ∀ c ∈ val, c ≠ ';')
    (hpre : ∀ e ∈ pre, (∀ c ∈ e, c ≠ ';') ∧
      jsStartsWith (name ++ ['=']) (jsTrim e) = false)
    (hpost : ∀ e ∈ post, ∀ c ∈ e, c ≠ ';')
    (hv : val.takeWhile (fun c => !(c == '=')) ≠ []) :
    resolveToken cfg Ctx.server
        (some (some (joinSep ';' (pre ++ (wsl ++ name ++ '=' :: val) :: post)))) env =
      some (val.takeWhile (fun c => !(c == '='))) := by
  have hscan := cookieScan_first_entry pre post wsl name val hname1 hnameWs hnameEq
    hnameSemi hwsl hval hpre hpost
  have hne : joinSep ';' (pre ++ (wsl ++ name ++ '=' :: val) :: post) ≠ [] := by
    apply joinSep_ne_nil
    exact ⟨wsl ++ name ++ '=' :: val, by simp, by simp⟩
  unfold resolveToken
  rw [hhook, hstorage, htok]
  simp only [jsTruthy, if_true, if_false, Bool.false_eq_true]
  rw [if_neg (by decide : ¬(Ctx.server = Ctx.client))]
  rw [hscan]
  simp only [List.isEmpty_iff, hne, if_false, jsTruthy, hv, Bool.not_eq_true']
  simp [List.isEmpty_iff, hv]

/-- C1 (counterexample): on the header `"tok=abc=="` the claim's extraction
(substring up to the next `;` or end) yields `"abc=="`, but the code's
`split('=')[1]` truncates the value at its first `=` and resolution yields
`"abc"`. -/
theorem serverCookieResolution_not_full_substring :
    claimedCookieValue (str "tok=abc==") (str "tok") = some (str "abc==") ∧
    resolveToken cfgCookieTok Ctx.server (some (some (str "tok=abc=="))) envNone =
      some (str "abc") ∧
    (str "abc" : Str) ≠ str "abc==" := by
  refine ⟨?_, ?_, ?_⟩ <;> decide

/-- Closed instance of the amended C1 theorem on the header
`"a=1; tok=abc"` (a non-matching first entry, a space before the name). -/
theorem serverCookieResolution_extracts_field_witness :
    resolveToken cfgCookieTok Ctx.server
        (some (some (joinSep ';' ([str "a=1"] ++ ([' '] ++ str "tok" ++ '=' :: str "abc") :: [])))) envNone =
      some ((str "abc").takeWhile (fun c => !(c == '='))) :=
  serverCookieResolution_extracts_field cfgCookieTok envNone [str "a=1"] [] [' ']
    (str "tok") (str "abc") rfl rfl rfl (by decide) (by decide) (by decide) (by decide)
    (by decide) (by decide) (by decide) (by decide) (by decide)

/-! ## Auth-header derivation (claim C2) -/

/-- C2 (confirmed): the auth-header value of a resolved token follows the
three-case derivation of `getAuth` (lines 48-52): a token matching
`^[a-zA-Z]+\s` passes through unchanged regardless of `authType`; with the
raw-token policy (`authType` configured as `null`, modelled `none`) the
bare token passes through; otherwise the result is `"<authType> <token>"`.
The final conjunct characterises the regex test: it succeeds exactly on
tokens that decompose as a nonempty alphabetic word followed by a
whitespace character. -/
theorem authHeaderDerivation_three_cases (authType : Option Str) (tok : Str) :
    (hasAuthScheme tok = true → deriveAuthHeader authType tok = tok) ∧
    (authType = none → deriveAuthHeader authType tok = tok) ∧
    (hasAuthScheme tok = false → ∀ a, authType = some a →
      deriveAuthHeader authType tok = a ++ ' ' :: tok) ∧
    (hasAuthScheme tok = true ↔ ∃ w c r, tok = w ++ c :: r ∧ w ≠ [] ∧
      (∀ x ∈ w, isAsciiAlpha x = true) ∧ isJsWs c = true) := by
  refine ⟨?_, ?_, ?_, ?_⟩
  · intro h
    simp [deriveAuthHeader, h]
  · intro h
    subst h
    unfold deriveAuthHeader
    split <;> rfl
  · intro h a ha
    subst ha
    simp [deriveAuthHeader, h]
  · constructor
    · intro h
      unfold hasAuthScheme at h
      obtain ⟨h1, h2⟩ : _ ∧ _ := by simpa only [Bool.and_eq_true] using h
      cases hd : List.dropWhile isAsciiAlpha tok with
      | nil => rw [hd] at h2; cases h2
      | cons c r =>
        rw [hd] at h2
        refine ⟨tok.takeWhile isAsciiAlpha, c, r, ?_, ?_, ?_, h2⟩
        · rw [← hd, List.takeWhile_append_dropWhile]
        · intro hcon
          rw [hcon] at h1
          cases h1
        · intro x hx
          exact List.mem_takeWhile_imp hx
    · rintro ⟨w, c, r, rfl, hw, hall, hc⟩
      have hca : isAsciiAlpha c = false := ws_not_alpha hc
      unfold hasAuthScheme
      rw [takeWhile_all_stop w r hall hca, dropWhile_all_stop w r hall hca]
      simp [hw, hc]

/-- Closed instance of C2: a bare token with a configured scheme gets the
prefix. -/
theorem authHeaderDerivation_witness :
    deriveAuthHeader (some (str "Bearer")) (str "abc") = str "Bearer" ++ ' ' :: str "abc" :=
  (authHeaderDerivation_three_cases (some (str "Bearer")) (str "abc")).2.2.1
    (by decide) (str "Bearer") rfl

/-! ## Token-resolution precedence (claim C3) -/

/-- C3 (confirmed): token resolution follows strict precedence with
short-circuiting.  If the `apollo:auth` hook populates the token ref (a
truthy value), that value is the result for every possible storage-backend
state (no backend is consulted); only with a falsy hook result does the
result equal the storage-backend read described by the spec (cookie store
for `tokenStorage = "cookie"`, localStorage on the client for
`"localStorage"`), and when no step yields a token the result is `none`
("no credential") — resolution is a total function, not an error. -/
theorem tokenResolution_precedence (cfg : ClientConfig) (ctx : Ctx)
    (rc : Option (Option Str)) (env : ResolveEnv) :
    (jsTruthy env.hookToken = true → resolveToken cfg ctx rc env = env.hookToken) ∧
    (jsTruthy env.hookToken = false →
      resolveToken cfg ctx rc env = specStorageRead cfg ctx rc env) := by
  constructor
  · intro h
    unfold resolveToken
    simp only [h, if_true]
  · intro h
    unfold resolveToken specStorageRead
    simp only [h, Bool.false_eq_true, if_false]
    by_cases h1 : cfg.tokenStorage = "cookie"
    · by_cases h2 : ctx = Ctx.client
      · by_cases h3 : jsTruthy env.clientCookie
        · simp [h1, h2, h3]
        · simp [h1, h2, h3, h]
      · rcases rc with _ | rcc
        · simp [h1, h2, h]
        · rcases rcc with _ | hdr
          · simp [h1, h2, h]
          · by_cases h4 : hdr.isEmpty
            · simp [h1, h2, h4, h]
            · by_cases h5 : jsTruthy (cookieScan hdr cfg.tokenName)
              · simp [h1, h2, h4, h5]
              · simp [h1, h2, h4, h5, h]
    · by_cases h2 : ctx = Ctx.client ∧ cfg.tokenStorage = "localStorage"
      · by_cases h3 : jsTruthy env.localStorageVal
        · simp [h1, h2, h3]
        · simp [h1, h2, h3]
      · simp [h1, h2, h]

/-- Closed instance of C3: a truthy hook token short-circuits storage. -/
theorem tokenResolution_precedence_witness :
    resolveToken cfgCookieTok Ctx.client none envHookFresh = envHookFresh.hookToken :=
  (tokenResolution_precedence cfgCookieTok Ctx.client none envHookFresh).1 (by decide)

/-! ## Split routing of operations (claim C4) -/

/-- C4 (confirmed): with both links configured (client context with a
`wsEndpoint`) and `websocketsOnly` false, the split router evaluates the
predicate per outgoing operation: an operation whose root definition is an
operation definition of kind `subscription` routes to the ws link, and
every other operation (query or mutation) routes to the HTTP link. -/
theorem splitRouting_per_operation (ctx : Ctx) (cfg : ClientConfig)
    (h1 : hasWsLink ctx cfg = true) (h2 : cfg.websocketsOnly = false) :
    ∀ op : OperationType,
      routeOperation ctx cfg
          { kind := DefinitionKind.operationDefinition, operation := some op } =
        if op = OperationType.subscription then Terminal.wsL else Terminal.httpL := by
  intro op
  cases op <;> simp [routeOperation, h1, h2, splitTest]

/-- Closed instance of C4: a subscription operation routes to the ws
link. -/
theorem splitRouting_witness :
    routeOperation Ctx.client cfgWsCaller
        { kind := DefinitionKind.operationDefinition,
          operation := some OperationType.subscription } =
      Terminal.wsL := by
  simpa using splitRouting_per_operation Ctx.client cfgWsCaller (by decide) rfl
    OperationType.subscription

/-! ## Websocket connection parameters (claim C5) -/

/-- C5 (counterexample): on a (re)connect the supplier does merge the
freshly resolved auth header into the static connection headers, but a
caller-supplied header of the same name takes precedence, not the auth
header: with static `Authorization: "old"` and a fresh token deriving
`"Bearer fresh"`, the supplied headers still hold `"old"`. -/
theorem wsConnectionParams_auth_not_precedent :
    getAuth cfgWsCaller Ctx.client none envHookFresh = some (str "Bearer fresh") ∧
    resHeader cfgWsCaller Ctx.client none envHookFresh "Authorization" = some (str "old") ∧
    some (str "old") ≠ some (str "Bearer fresh") := by
  refine ⟨?_, ?_, ?_⟩ <;> decide

/-- C5 (amended): on every subscription (re)connect attempt the
connection-parameter supplier starts from the static connection parameters
(awaiting them when they are a producer function) and merges in the
freshly resolved auth header such that a caller-supplied header of the
same name takes precedence over the auth header; the auth header is used
only at keys the caller did not supply, and the non-header fields pass
through unchanged. -/
theorem wsConnectionParams_merge (cfg : ClientConfig) (ctx : Ctx)
    (rc : Option (Option Str)) (env : ResolveEnv) (a : Str) (k : String)
    (hauth : getAuth cfg ctx rc env = some a) :
    (wsConnectionParams cfg ctx rc env).rest = (awaitStaticParams cfg.wsConnectionParams).rest ∧
    (∀ v, cpHeader (awaitStaticParams cfg.wsConnectionParams) k = some v →
      resHeader cfg ctx rc env k = some v) ∧
    (cpHeader (awaitStaticParams cfg.wsConnectionParams) k = none →
      resHeader cfg ctx rc env k = if k = cfg.authHeader then some a else none) := by
  refine ⟨?_, ?_, ?_⟩
  · simp only [wsConnectionParams, hauth]
  · intro v hv
    cases hh : (awaitStaticParams cfg.wsConnectionParams).headers with
    | none =>
      unfold cpHeader at hv
      rw [hh] at hv
      cases hv
    | some ch =>
      unfold cpHeader at hv
      rw [hh] at hv
      have hv2 : ch k = some v := hv
      simp only [resHeader, cpHeader, wsConnectionParams, hauth, hh]
      rw [hv2]
  · intro hnone
    cases hh : (awaitStaticParams cfg.wsConnectionParams).headers with
    | none =>
      simp only [resHeader, cpHeader, wsConnectionParams, hauth, hh]
    | some ch =>
      unfold cpHeader at hnone
      rw [hh] at hnone
      have hn2 : ch k = none := hnone
      simp only [resHeader, cpHeader, wsConnectionParams, hauth, hh]
      rw [hn2]

/-- Closed instance of the amended C5 theorem: the caller-supplied
`Authorization` connection header survives the merge. -/
theorem wsConnectionParams_merge_witness :
    resHeader cfgWsCaller Ctx.client none envHookFresh "Authorization" = some (str "old") :=
  (wsConnectionParams_merge cfgWsCaller Ctx.client none envHookFresh (str "Bearer fresh")
    "Authorization" (by decide)).2.1 (str "old") (by decide)

/-! ## The `default` registry alias (claim C6) -/

theorem registryStep_preserves (allKeys : List String) (st : Registry) (e : String)
    (he : e ≠ "default") (fk : String)
    (h1 : st.clients "default" = some fk) (h2 : st.clients fk = some fk) :
    (registryStep allKeys st e).clients "default" = some fk ∧
    (registryStep allKeys st e).clients fk = some fk ∧
    (registryStep allKeys st e).aliasWrites = st.aliasWrites := by
  have hne : ¬(("default" : String) = e) := fun hde => he hde.symm
  have hguard : ¬((if ("default" : String) = e then some e else st.clients "default") = none ∧
      ("default" : String) ∉ allKeys ∧ allKeys.head? = some e) := by
    rw [if_neg hne, h1]
    rintro ⟨hc, -, -⟩
    cases hc
  simp only [registryStep]
  rw [if_neg hguard]
  refine ⟨?_, ?_, rfl⟩
  · simp only
    rw [if_neg hne, h1]
  · by_cases hfe : fk = e
    · subst hfe
      simp
    · simp only
      rw [if_neg hfe, h2]

theorem registryFold_preserves (allKeys : List String) (rest : List String)
    (hrest : ∀ e ∈ rest, e ≠ "default") :
    ∀ (st : Registry) (fk : String),
      st.clients "default" = some fk → st.clients fk = some fk →
      ((rest.foldl (registryStep allKeys) st).clients "default" = some fk ∧
       (rest.foldl (registryStep allKeys) st).clients fk = some fk ∧
       (rest.foldl (registryStep allKeys) st).aliasWrites = st.aliasWrites) := by
  induction rest with
  | nil =>
    intro st fk h1 h2
    exact ⟨h1, h2, rfl⟩
  | cons e es ih =>
    intro st fk h1 h2
    have he : e ≠ "default" := hrest e (List.mem_cons_self e es)
    obtain ⟨ha, hb, hc⟩ := registryStep_preserves allKeys st e he fk h1 h2
    rw [List.foldl_cons]
    obtain ⟨ha2, hb2, hc2⟩ := ih (fun x hx => hrest x (List.mem_cons_of_mem e hx)) _ fk ha hb
    exact ⟨ha2, hb2, by rw [hc2, hc]⟩

/-- C6 (confirmed): for a configuration map with no key literally named
`"default"`, after the build loop the `default` alias stores the client
built from the first declared key (which the registry also stores under
that key), and the alias assignment of lines 149-151 runs exactly once —
no later iteration reassigns it. -/
theorem defaultAlias_first_key (keys : List String) (h1 : keys ≠ [])
    (h2 : "default" ∉ keys) :
    ∃ fk, keys.head? = some fk ∧
      (buildRegistry keys).clients "default" = some fk ∧
      (buildRegistry keys).clients fk = some fk ∧
      (buildRegistry keys).aliasWrites = 1 := by
  cases keys with
  | nil => exact absurd rfl h1
  | cons fk rest =>
    refine ⟨fk, rfl, ?_⟩
    have hfk : fk ≠ "default" := by
      intro hc
      exact h2 (hc ▸ List.mem_cons_self fk rest)
    have hne : ¬(("default" : String) = fk) := fun hde => hfk hde.symm
    have hstep : registryStep (fk :: rest) { clients := fun _ => none, aliasWrites := 0 } fk =
        { clients := fun k => if k = "default" then some fk else if k = fk then some fk else none,
          aliasWrites := 1 } := by
      simp only [registryStep]
      rw [if_pos (by exact ⟨by rw [if_neg hne], h2, rfl⟩)]
    unfold buildRegistry
    rw [List.foldl_cons, hstep]
    have hrest : ∀ e ∈ rest, e ≠ "default" := by
      intro e he hc
      exact h2 (hc ▸ List.mem_cons_of_mem fk he)
    obtain ⟨ha, hb, hc⟩ := registryFold_preserves (fk :: rest) rest hrest
      { clients := fun k => if k = "default" then some fk else if k = fk then some fk else none,
        aliasWrites := 1 } fk
      (by show (if ("default" : String) = "default" then some fk
            else if ("default" : String) = fk then some fk else none) = some fk
          rw [if_pos rfl])
      (by show (if fk = "default" then some fk else if fk = fk then some fk else none) = some fk
          rw [if_neg hfk, if_pos rfl])
    exact ⟨ha, hb, by rw [hc]⟩

/-- Closed instance of C6 on the two-key configuration `["a", "b"]`. -/
theorem defaultAlias_first_key_witness :
    ∃ fk, (["a", "b"].head? = some fk) ∧
      (buildRegistry ["a", "b"]).clients "default" = some fk ∧
      (buildRegistry ["a", "b"]).clients fk = some fk ∧
      (buildRegistry ["a", "b"]).aliasWrites = 1 :=
  defaultAlias_first_key ["a", "b"] (by decide) (by decide)

/-! ## The `app:rendered` registration (claim C7) -/

/-- C7 (counterexample): plugin construction in a client execution context
does register the payload-writing `app:rendered` callback — the
registration on line 155 is unconditional — refuting the claim that no
such callback is registered on the client. -/
theorem appRenderedHook_registered_on_client :
    PluginEffect.hookAppRendered "_apollo:a" ∈ clientCacheEffects Ctx.client "a" payloadEmpty := by
  decide

/-- C7 (amended): the producer-side cache-extraction callback on the
`app:rendered` lifecycle event is registered unconditionally, in both
server and client execution contexts (the event itself only fires during
server rendering). -/
theorem appRenderedHook_registered_always (ctx : Ctx) (key : String)
    (payload : String → Option PayloadVal) :
    PluginEffect.hookAppRendered ("_apollo:" ++ key) ∈ clientCacheEffects ctx key payload := by
  unfold clientCacheEffects
  exact List.mem_cons_self _ _

/-! ## Auth link without a credential (claim C8) -/

/-- C8 (confirmed): when token resolution yields no credential the auth
link callback returns nothing, the operation context is left unchanged,
and the request proceeds with exactly the caller-provided headers. -/
theorem authLink_no_credential (cfg : ClientConfig) (ctx : Ctx)
    (rc : Option (Option Str)) (env : ResolveEnv) (headers : HMap)
    (h : getAuth cfg ctx rc env = none) :
    applyAuthLink cfg ctx rc env headers = none ∧
    effectiveHeaders cfg ctx rc env headers = headers := by
  have h1 : applyAuthLink cfg ctx rc env headers = none := by
    unfold applyAuthLink
    rw [h]
  refine ⟨h1, ?_⟩
  unfold effectiveHeaders
  rw [h1]

/-- Closed instance of C8: with every backend empty the headers pass
through untouched. -/
theorem authLink_no_credential_witness :
    effectiveHeaders cfgCookieTok Ctx.client none envNone (fun _ => none) = (fun _ => none) :=
  (authLink_no_credential cfgCookieTok Ctx.client none envNone (fun _ => none) rfl).2

/-! ## Client-side cache restoration (claim C9) -/

/-- C9 (confirmed): on a client execution context cache restoration occurs
iff the transferable payload holds a cache snapshot under
`"_apollo:<key>"`; a missing or null entry restores nothing and leaves
only the callback registration (the model is a total function, so neither
case can crash client construction); when a snapshot is present the
restored state is its identity JSON round-trip. -/
theorem cacheRestore_guarded (key : String) (payload : String → Option PayloadVal) :
    ((∃ s, PluginEffect.cacheRestore ("_apollo:" ++ key) s ∈
        clientCacheEffects Ctx.client key payload) ↔
      (∃ s, payload ("_apollo:" ++ key) = some (PayloadVal.vCache s))) ∧
    (payload ("_apollo:" ++ key) = none →
      clientCacheEffects Ctx.client key payload =
        [PluginEffect.hookAppRendered ("_apollo:" ++ key)]) ∧
    (payload ("_apollo:" ++ key) = some PayloadVal.vNull →
      clientCacheEffects Ctx.client key payload =
        [PluginEffect.hookAppRendered ("_apollo:" ++ key)]) ∧
    (∀ s, payload ("_apollo:" ++ key) = some (PayloadVal.vCache s) →
      PluginEffect.cacheRestore ("_apollo:" ++ key) (destrStringify s) ∈
        clientCacheEffects Ctx.client key payload) := by
  refine ⟨⟨?_, ?_⟩, ?_, ?_, ?_⟩
  · rintro ⟨s, hs⟩
    cases hp : payload ("_apollo:" ++ key) with
    | none =>
      rw [clientCacheEffects] at hs
      rw [hp] at hs
      simp at hs
    | some v =>
      cases v with
      | vNull =>
        rw [clientCacheEffects] at hs
        rw [hp] at hs
        simp at hs
      | vCache s2 => exact ⟨s2, rfl⟩
  · rintro ⟨s, hs⟩
    exact ⟨destrStringify s, by simp [clientCacheEffects, hs]⟩
  · intro h
    simp [clientCacheEffects, h]
  · intro h
    simp [clientCacheEffects, h]
  · intro s h
    simp [clientCacheEffects, h]

/-- Closed instance of C9: an empty payload restores nothing and the
construction still performs the registration effect. -/
theorem cacheRestore_guarded_witness :
    clientCacheEffects Ctx.client "a" payloadEmpty =
      [PluginEffect.hookAppRendered ("_apollo:" ++ "a")] :=
  (cacheRestore_guarded "a" payloadEmpty).2.1 rfl

/-! ## Cookie proxying (claim C10) -/

/-- C10 (confirmed): with cookie proxying enabled on a server execution
context, the raw incoming cookie header is forwarded into an operation's
headers exactly when token resolution yields a credential: with a
credential the outgoing `cookie` header equals the raw header, and without
one the headers are left untouched (the cookie header is not forwarded
either). -/
theorem cookieForwarding_iff_credential (cfg : ClientConfig) (env : ResolveEnv)
    (hdr : Option Str) (headers : HMap) :
    (getAuth cfg Ctx.server (requestCookiesOf Ctx.server true hdr) env = none →
      effectiveHeaders cfg Ctx.server (requestCookiesOf Ctx.server true hdr) env headers =
        headers) ∧
    (∀ a, getAuth cfg Ctx.server (requestCookiesOf Ctx.server true hdr) env = some a →
      cfg.authHeader ≠ "cookie" →
      effectiveHeaders cfg Ctx.server (requestCookiesOf Ctx.server true hdr) env headers
        "cookie" = hdr) := by
  have hrc : requestCookiesOf Ctx.server true hdr = some hdr := by
    unfold requestCookiesOf
    rw [if_pos ⟨rfl, rfl⟩]
  constructor
  · intro h
    unfold effectiveHeaders applyAuthLink
    rw [h]
  · intro a ha hne
    unfold effectiveHeaders applyAuthLink
    rw [ha, hrc]
    simp only
    rw [if_neg (fun hc : ("cookie" : String) = cfg.authHeader => hne hc.symm)]
    simp

/-- Closed instance of C10: a resolvable cookie token forwards the whole
raw cookie header. -/
theorem cookieForwarding_iff_credential_witness :
    effectiveHeaders cfgCookieTok Ctx.server
        (requestCookiesOf Ctx.server true (some (str "tok=abc"))) envNone (fun _ => none)
        "cookie" = some (str "tok=abc") :=
  (cookieForwarding_iff_credential cfgCookieTok envNone (some (str "tok=abc"))
    (fun _ => none)).2 (str "Bearer abc") (by decide) (by decide)

end NuxtApolloPlugin
